import Mathlib

/-!
Verification of the two Prometheus HTTP-SD generator scripts
(`scripts/scrape_ec2_reachability.py` and `scripts/generate_ookla_targets.py`)
against their natural-language specification.

The Python transformation logic is shallowly embedded: Python strings are
`String` (a list of `Char` code points, compared by code point exactly as
Python compares `str`), Python lists are `List`, the per-source label
dictionaries (which always carry a fixed key set) are structures, and
`sorted` is `List.mergeSort` (both are stable merge sorts comparing keys
with lexicographic tuple order).  Network effects (HTTP fetch, DNS) are
parameters of the embedded pipeline functions.
-/

/-! ### Python text primitives -/

/-- The code points Python's `str.split()` / `str.strip()` treat as
whitespace (ASCII whitespace, the C1 controls NEL, NBSP, and the Unicode
space separators). -/
def isPySpace (c : Char) : Bool :=
  (9 ≤ c.toNat && c.toNat ≤ 13) || (28 ≤ c.toNat && c.toNat ≤ 32) ||
  c.toNat = 0x85 || c.toNat = 0xa0 || c.toNat = 0x1680 ||
  (0x2000 ≤ c.toNat && c.toNat ≤ 0x200a) || c.toNat = 0x2028 ||
  c.toNat = 0x2029 || c.toNat = 0x202f || c.toNat = 0x205f || c.toNat = 0x3000

/-- Python `str.strip()` on the character list: drop leading and trailing
whitespace. -/
def pyStrip (l : List Char) : List Char :=
  ((l.dropWhile isPySpace).reverse.dropWhile isPySpace).reverse

/-- Python `.replace("\xa0", " ")`: the needle is a single code point, so
the substring replacement is a character map. -/
def replaceNbsp (l : List Char) : List Char :=
  l.map (fun c => if c.toNat = 0xa0 then ' ' else c)

/-- Python `str.split()` (no separator): maximal runs of non-whitespace,
empty strings dropped. -/
def pySplitWs : List Char → List (List Char)
  | [] => []
  | c :: cs =>
    if isPySpace c then pySplitWs cs
    else (c :: cs.takeWhile (fun d => !isPySpace d)) ::
      pySplitWs (cs.dropWhile (fun d => !isPySpace d))
termination_by l => l.length
decreasing_by
  · simp only [List.length_cons]; omega
  · have h := (List.dropWhile_sublist (l := cs)
      (p := fun d => !isPySpace d)).length_le
    simp only [List.length_cons]; omega

/-- `clean_text` of `scrape_ec2_reachability.py`:
`" ".join((s or "").strip().replace("\xa0", " ").split())`. -/
def clean_text (s : String) : String :=
  ⟨List.intercalate [' '] (pySplitWs (replaceNbsp (pyStrip s.data)))⟩

/-- Python `str.lower()` restricted to its ASCII action (the only case
the scripts compare against are the ASCII literals `"ip"` /
`"instance ip"`). -/
def pyLower (s : String) : String :=
  ⟨s.data.map Char.toLower⟩

/-- `strip_port` of `generate_ookla_targets.py`:
`hostport.rsplit(":", 1)[0]` — everything before the last `':'`, or the
whole string when there is none. -/
def strip_port (hostport : String) : String :=
  let r := hostport.data.reverse
  if ':' ∈ r then ⟨((r.dropWhile (fun c => c != ':')).drop 1).reverse⟩
  else hostport

/-- `split_city_country` of `scrape_ec2_reachability.py`: clean the
heading; when it contains a comma, `txt.split(",", 1)` with both parts
stripped, otherwise `(txt, "")`. -/
def split_city_country (head : String) : String × String :=
  let txt := clean_text head
  if ',' ∈ txt.data then
    let a := pyStrip (txt.data.takeWhile (fun c => c != ','))
    let b := pyStrip ((txt.data.dropWhile (fun c => c != ',')).drop 1)
    (⟨a⟩, ⟨b⟩)
  else (txt, "")

/-! ### EC2 reachability pipeline (`scrape_ec2_reachability.py`) -/

/-- The label dictionary built in `parse_table`; it always carries exactly
these seven keys, in this insertion order: `provider`, `area`, `region`,
`city`, `country`, `ip_version`, `source`. -/
structure ECLabels where
  provider : String
  area : String
  region : String
  city : String
  country : String
  ip_version : String
  source : String
deriving DecidableEq, Repr

/-- One HTTP-SD entry `{"targets": [...], "labels": {...}}` of the EC2
script. -/
structure ECGroup where
  targets : List String
  labels : ECLabels
deriving DecidableEq, Repr

/-- One `<tr>` as the script reads it: an optional
`<th class="region-heading">` text, and the text of each `<td>` cell. -/
structure Row where
  region_heading : Option String
  tds : List String
deriving DecidableEq, Repr

/-- One `.panel.panel-default` section: optional `.panel-title` text and
an optional table of rows. -/
structure Panel where
  panel_title : Option String
  table : Option (List Row)
deriving DecidableEq, Repr

/-- The row loop of `parse_table`, with the heading carry-forward state
(`current_city`, `current_country`) as explicit parameters. -/
def parse_rows (area ip_version : String) :
    String → String → List Row → List ECGroup
  | _, _, [] => []
  | city, country, r :: rs =>
    match r.region_heading with
    | some h =>
      let p := split_city_country h
      parse_rows area ip_version p.1 p.2 rs
    | none =>
      if r.tds.length ≥ 3 then
        let region := clean_text (r.tds.getD 0 "")
        let ip := clean_text (r.tds.getD 2 "")
        if ip = "" || pyLower ip = "ip" || pyLower ip = "instance ip" then
          parse_rows area ip_version city country rs
        else
          { targets := [ip],
            labels :=
              { provider := "aws", area := area, region := region,
                city := city, country := country,
                ip_version := if ip_version = "v6" then "6" else "4",
                source := "ec2-reachability" } } ::
            parse_rows area ip_version city country rs
      else parse_rows area ip_version city country rs

/-- `parse_table`: panel title becomes the `area` label, a missing table
yields no records, and rows are folded with empty initial city/country. -/
def parse_table (panel : Panel) (ip_version : String) : List ECGroup :=
  let area := match panel.panel_title with
    | some t => clean_text t
    | none => ""
  match panel.table with
  | none => []
  | some rows => parse_rows area ip_version "" "" rows

/-- `parse_ipv4`: all panels of the IPv4 page, parsed with
`ip_version="v4"`. -/
def parse_ipv4 (panels : List Panel) : List ECGroup :=
  panels.flatMap (fun p => parse_table p "v4")

/-- `parse_ipv6`: all panels of the IPv6 page, parsed with
`ip_version="v6"`. -/
def parse_ipv6 (panels : List Panel) : List ECGroup :=
  panels.flatMap (fun p => parse_table p "v6")

/-- `tuple(sorted(labels.items()))` for the fixed seven-key schema: the
(key, value) pairs listed in sorted key order. -/
def labels_items (L : ECLabels) : List (String × String) :=
  [("area", L.area), ("city", L.city), ("country", L.country),
   ("ip_version", L.ip_version), ("provider", L.provider),
   ("region", L.region), ("source", L.source)]

/-- The dedup key of `main`:
`(tuple(g["targets"]), tuple(sorted(g["labels"].items())))`. -/
def ec_key (g : ECGroup) : List String × List (String × String) :=
  (g.targets, labels_items g.labels)

/-- The loop body of `dedup`: `seen` is the set of keys already emitted
(a list used only through membership, mirroring the Python `set`). -/
def dedup_go (seen : List (List String × List (String × String))) :
    List ECGroup → List ECGroup
  | [] => []
  | g :: gs =>
    if ec_key g ∈ seen then dedup_go seen gs
    else g :: dedup_go (ec_key g :: seen) gs

/-- `dedup` of `main`: keep the first occurrence of every key. -/
def dedup (l : List ECGroup) : List ECGroup := dedup_go [] l

/-- `sort_key` of the EC2 script:
`(area, region, city, targets[0], ip_version)` — a flat tuple of strings.
Pipeline groups always carry exactly one target, so `headD ""` coincides
with Python's `g["targets"][0]` on every value the script sorts. -/
def sort_key (g : ECGroup) : List String :=
  [g.labels.area, g.labels.region, g.labels.city,
   g.targets.headD "", g.labels.ip_version]

/-- Python `≤` on same-shape tuples of strings: lexicographic, with `str`
compared by code point. -/
def listLe : List String → List String → Bool
  | [], _ => true
  | _ :: _, [] => false
  | a :: as, b :: bs => if a = b then listLe as bs else decide (a < b)

/-- The comparator `sorted(..., key=sort_key)` sorts by. -/
def ec_le (g1 g2 : ECGroup) : Bool := listLe (sort_key g1) (sort_key g2)

/-- The three group lists `main` serializes (combined / IPv4 / IPv6). -/
structure EC2Output where
  all_groups : List ECGroup
  v4_sorted : List ECGroup
  v6_sorted : List ECGroup
deriving DecidableEq, Repr

/-- The pure core of the EC2 `main`: parse both pages, dedup each family,
sort (CPython `sorted` and `List.mergeSort` are both stable merge sorts
over the same key comparison). -/
def ec2_main (v4_panels v6_panels : List Panel) : EC2Output :=
  let v4 := dedup (parse_ipv4 v4_panels)
  let v6 := dedup (parse_ipv6 v6_panels)
  { all_groups := (v4 ++ v6).mergeSort ec_le
    v4_sorted := v4.mergeSort ec_le
    v6_sorted := v6.mergeSort ec_le }

/-! ### Ookla pipeline (`generate_ookla_targets.py`) -/

/-- One entry of the speedtest server JSON array, restricted to the
fields the script reads (`item.get(...)`; a missing key is `none`). -/
structure OoklaItem where
  country : Option String
  host : Option String
  id : Option Int
  name : Option String
  sponsor : Option String
  cc : Option String
  url : Option String
deriving DecidableEq, Repr

/-- The label dictionary `{**base, "ip_family": fam}`; insertion order
`ookla_id`, `city`, `sponsor`, `cc`, `fqdn`, `url`, `ip_family`. -/
structure OoklaLabels where
  ookla_id : String
  city : String
  sponsor : String
  cc : String
  fqdn : String
  url : String
  ip_family : String
deriving DecidableEq, Repr

/-- One HTTP-SD entry of the Ookla script. -/
structure OoklaGroup where
  targets : List String
  labels : OoklaLabels
deriving DecidableEq, Repr

/-- `make_group`. -/
def make_group (targets : List String) (labels : OoklaLabels) : OoklaGroup :=
  { targets := targets, labels := labels }

/-- The DNS collaborator: per address family, the address strings
`getaddrinfo` enumerates (in its own order, possibly with repeats), or
`none` when the lookup raises `gaierror`. -/
def Resolver : Type := String → Option (List String) × Option (List String)

/-- Python `≤` on `str`: code-point lexicographic. -/
def str_le (a b : String) : Bool := a == b || decide (a < b)

/-- Python `sorted(set(l))`: the distinct elements of `l` in increasing
string order. -/
def pySortedSet (l : List String) : List String :=
  l.dedup.mergeSort str_le

/-- `resolve_addrs`: each family independently; a `gaierror` leaves that
family's set empty; each set is returned `sorted`. -/
def resolve_addrs (r : Resolver) (host : String) : List String × List String :=
  (pySortedSet ((r host).1.getD []), pySortedSet ((r host).2.getD []))

/-- The `base` label dictionary of the item loop, completed with the
`ip_family` value. -/
def ookla_base (item : OoklaItem) (fqdn fam : String) : OoklaLabels :=
  { ookla_id := match item.id with | some n => toString n | none => ""
    city := item.name.getD ""
    sponsor := item.sponsor.getD ""
    cc := item.cc.getD ""
    fqdn := fqdn
    url := item.url.getD ""
    ip_family := fam }

/-- The item loop of the Ookla `main`: filter to `country == "Japan"`,
skip items without a host, resolve, and append one group per non-empty
address family (`icmp_v4`, `icmp_v6` accumulate in item order). -/
def ookla_groups (r : Resolver) :
    List OoklaItem → List OoklaGroup × List OoklaGroup
  | [] => ([], [])
  | item :: rest =>
    let tail := ookla_groups r rest
    if item.country = some "Japan" then
      match item.host with
      | none => tail
      | some host_field =>
        if host_field = "" then tail
        else
          let fqdn := strip_port host_field
          let res := resolve_addrs r fqdn
          let g4 := if res.1.isEmpty then []
            else [make_group res.1 (ookla_base item fqdn "v4")]
          let g6 := if res.2.isEmpty then []
            else [make_group res.2 (ookla_base item fqdn "v6")]
          (g4 ++ tail.1, g6 ++ tail.2)
    else tail

/-- The sort key of `sort_groups`:
`(city, sponsor, ookla_id, ip_family, fqdn, url, tuple(targets))`.
The trailing target tuple is flattened behind the fixed-length prefix of
six label values; lexicographic comparison is unchanged by this. -/
def ookla_key (g : OoklaGroup) : List String :=
  [g.labels.city, g.labels.sponsor, g.labels.ookla_id, g.labels.ip_family,
   g.labels.fqdn, g.labels.url] ++ g.targets

/-- The comparator `sort_groups` sorts by. -/
def ookla_le (g1 g2 : OoklaGroup) : Bool := listLe (ookla_key g1) (ookla_key g2)

/-- `sort_groups`. -/
def sort_groups (groups : List OoklaGroup) : List OoklaGroup :=
  groups.mergeSort ookla_le

/-- The two sorted group lists the Ookla `main` serializes
(IPv4 file, IPv6 file). -/
def ookla_main (data : List OoklaItem) (r : Resolver) :
    List OoklaGroup × List OoklaGroup :=
  let p := ookla_groups r data
  (sort_groups p.1, sort_groups p.2)

/-! ### JSON serialization (the Writer)

`scrape_ec2_reachability.py` writes
`json.dumps(..., ensure_ascii=False, separators=(",", ":")) + "\n"`;
`generate_ookla_targets.py` writes `json.dump(..., ensure_ascii=False,
indent=2)` followed by `"\n"`. -/

/-- Lower-case hex digit. -/
def hexDigit (n : Nat) : Char :=
  if n < 10 then Char.ofNat (48 + n) else Char.ofNat (87 + n)

/-- Python `json` string escaping with `ensure_ascii=False`: only `"`,
`\` and the control characters below U+0020 are escaped. -/
def jsonEscapeChar (c : Char) : List Char :=
  if c = '"' then ['\\', '"']
  else if c = '\\' then ['\\', '\\']
  else if c = '\n' then ['\\', 'n']
  else if c = '\t' then ['\\', 't']
  else if c = '\r' then ['\\', 'r']
  else if c.toNat = 8 then ['\\', 'b']
  else if c.toNat = 12 then ['\\', 'f']
  else if c.toNat < 32 then
    ['\\', 'u', '0', '0', hexDigit (c.toNat / 16), hexDigit (c.toNat % 16)]
  else [c]

/-- A JSON string literal. -/
def jsonStr (s : String) : String :=
  ⟨'"' :: (s.data.flatMap jsonEscapeChar ++ ['"'])⟩

/-- One EC2 group, compact (`separators=(",", ":")`), keys in dict
insertion order. -/
def ec_json_group (g : ECGroup) : String :=
  "\x7b\"targets\":[" ++ String.intercalate "," (g.targets.map jsonStr) ++
  "],\"labels\":\x7b" ++
  String.intercalate ","
    ["\"provider\":" ++ jsonStr g.labels.provider,
     "\"area\":" ++ jsonStr g.labels.area,
     "\"region\":" ++ jsonStr g.labels.region,
     "\"city\":" ++ jsonStr g.labels.city,
     "\"country\":" ++ jsonStr g.labels.country,
     "\"ip_version\":" ++ jsonStr g.labels.ip_version,
     "\"source\":" ++ jsonStr g.labels.source] ++
  "\x7d\x7d"

/-- The bytes of one EC2 output file. -/
def ec2_bytes (groups : List ECGroup) : String :=
  "[" ++ String.intercalate "," (groups.map ec_json_group) ++ "]\n"

/-- The Ookla labels object at indent depth 2. -/
def ookla_json_labels (L : OoklaLabels) : String :=
  "\x7b\n      " ++
  String.intercalate ",\n      "
    ["\"ookla_id\": " ++ jsonStr L.ookla_id,
     "\"city\": " ++ jsonStr L.city,
     "\"sponsor\": " ++ jsonStr L.sponsor,
     "\"cc\": " ++ jsonStr L.cc,
     "\"fqdn\": " ++ jsonStr L.fqdn,
     "\"url\": " ++ jsonStr L.url,
     "\"ip_family\": " ++ jsonStr L.ip_family] ++
  "\n    \x7d"

/-- The Ookla targets array at indent depth 2. -/
def ookla_json_targets (ts : List String) : String :=
  if ts.isEmpty then "[]"
  else "[\n      " ++ String.intercalate ",\n      " (ts.map jsonStr) ++
    "\n    ]"

/-- One Ookla group at indent depth 1. -/
def ookla_json_group (g : OoklaGroup) : String :=
  "\x7b\n    \"targets\": " ++ ookla_json_targets g.targets ++
  ",\n    \"labels\": " ++ ookla_json_labels g.labels ++ "\n  \x7d"

/-- The bytes of one Ookla output file (`json.dump(..., indent=2)` plus
the explicit trailing `f.write("\n")`). -/
def ookla_bytes (groups : List OoklaGroup) : String :=
  (if groups.isEmpty then "[]"
   else "[\n  " ++
     String.intercalate ",\n  " (groups.map ookla_json_group) ++ "\n]") ++
  "\n"

/-- The three EC2 output files as bytes. -/
def ec2_files (v4_panels v6_panels : List Panel) : String × String × String :=
  let o := ec2_main v4_panels v6_panels
  (ec2_bytes o.all_groups, ec2_bytes o.v4_sorted, ec2_bytes o.v6_sorted)

/-- The two Ookla output files as bytes. -/
def ookla_files (data : List OoklaItem) (r : Resolver) : String × String :=
  let p := ookla_main data r
  (ookla_bytes p.1, ookla_bytes p.2)

/-! ### Spec-side definitions and concrete scenario inputs -/

/-- §4.4 stated from the spec's words: scan the sequence and keep a group
exactly when its equality key has not appeared among the groups scanned
earlier (`prev` is the already-scanned prefix of the input). -/
def spec_dedup_go (prev : List ECGroup) : List ECGroup → List ECGroup
  | [] => []
  | g :: gs =>
    if ec_key g ∈ prev.map ec_key then spec_dedup_go (prev ++ [g]) gs
    else g :: spec_dedup_go (prev ++ [g]) gs

/-- The subsequence of first occurrences under the §4.4 key. -/
def spec_dedup (l : List ECGroup) : List ECGroup := spec_dedup_go [] l

/-- Modelled from the spec: "`targets` contains only syntactically valid
IPv4 … literals" — a dotted-quad IPv4 literal (exactly four decimal
components, each 0–255, no leading zeros).  The scripts themselves never
validate address syntax; this predicate exists only to state the spec's
family-purity property. -/
def isIPv4 (s : String) : Bool :=
  let parts := s.data.splitOn '.'
  parts.length == 4 && parts.all (fun w =>
    !w.isEmpty && w.all Char.isDigit && decide (w.length ≤ 3) &&
    (w.length == 1 || w.headD '0' != '0') &&
    decide (w.foldl (fun n c => 10 * n + (c.toNat - 48)) 0 ≤ 255))

/-- The single source item of the spec's end-to-end scenario (§8). -/
def scenario_item : OoklaItem :=
  { country := some "Japan", host := some "a.example.net:8080",
    id := some 7, name := some "Osaka", sponsor := some "X",
    cc := some "JP", url := some "http://a.example.net/" }

/-- A resolver answering `v4=["203.0.113.5"]`, `v6=[]` for every host. -/
def scenario_resolver : Resolver := fun _ => (some ["203.0.113.5"], some [])

/-- The one group the scenario's IPv4 file must contain. -/
def scenario_group : OoklaGroup :=
  { targets := ["203.0.113.5"],
    labels := { ookla_id := "7", city := "Osaka", sponsor := "X",
                cc := "JP", fqdn := "a.example.net",
                url := "http://a.example.net/", ip_family := "v4" } }

/-- A resolver whose IPv4 lookup raises `gaierror` and whose IPv6 lookup
succeeds. -/
def v6_only_resolver : Resolver := fun _ => (none, some ["2001:db8::1"])

/-- Two resolvers returning the same IPv4 address set in different
enumeration orders and multiplicities (and an empty IPv6 answer as
failure vs as an empty list). -/
def order_resolver_a : Resolver := fun _ => (some ["10.0.0.2", "10.0.0.1"], none)

/-- See `order_resolver_a`. -/
def order_resolver_b : Resolver :=
  fun _ => (some ["10.0.0.1", "10.0.0.2", "10.0.0.1"], some [])

/-- A data row whose address cell is not an IP literal. -/
def bad_row : Row := Row.mk none ["us-east-1", "203.0.113.0/24", "not-an-ip"]

/-- A header row misclassified as a data row (third cell `"Instance IP"`). -/
def header_row : Row := Row.mk none ["Region", "Prefix", "Instance IP"]

/-- A city/country heading row. -/
def lagos_row : Row := Row.mk (some "Lagos, Nigeria") []

/-- A panel holding the rows above (the repeated data row exercises
`dedup`). -/
def demo_panel : Panel :=
  Panel.mk (some "Africa") (some [header_row, lagos_row, bad_row, bad_row])

/-! ### Comparator lemmas -/

/-- `listLe` is reflexive. -/
theorem listLe_refl : ∀ a : List String, listLe a a = true
  | [] => rfl
  | x :: xs => by simp only [listLe, if_pos rfl]; exact listLe_refl xs

/-- `listLe` is transitive (Python tuple `≤`). -/
theorem listLe_trans : ∀ a b c : List String,
    listLe a b = true → listLe b c = true → listLe a c = true
  | [], _, _, _, _ => rfl
  | _ :: _, [], _, h1, _ => by simp [listLe] at h1
  | _ :: _, _ :: _, [], _, h2 => by simp [listLe] at h2
  | x :: xs, y :: ys, z :: zs, h1, h2 => by
    simp only [listLe] at h1 h2 ⊢
    by_cases hxy : x = y <;> by_cases hyz : y = z
    · subst hxy; subst hyz
      rw [if_pos rfl] at h1 h2 ⊢
      exact listLe_trans xs ys zs h1 h2
    · subst hxy
      rw [if_pos rfl] at h1
      rw [if_neg hyz] at h2 ⊢
      exact h2
    · subst hyz
      rw [if_pos rfl] at h2
      rw [if_neg hxy] at h1 ⊢
      exact h1
    · rw [if_neg hxy] at h1
      rw [if_neg hyz] at h2
      have hx : x < y := of_decide_eq_true h1
      have hy : y < z := of_decide_eq_true h2
      have hxz : x < z := lt_trans hx hy
      rw [if_neg (ne_of_lt hxz)]
      exact decide_eq_true hxz

/-- `listLe` is total. -/
theorem listLe_total : ∀ a b : List String, (listLe a b || listLe b a) = true
  | [], _ => by simp [listLe]
  | _ :: _, [] => by simp [listLe]
  | x :: xs, y :: ys => by
    simp only [listLe]
    by_cases hxy : x = y
    · subst hxy
      rw [if_pos rfl, if_pos rfl]
      exact listLe_total xs ys
    · have hyx : y ≠ x := fun h => hxy h.symm
      rw [if_neg hxy, if_neg hyx]
      rcases lt_trichotomy x y with h | h | h
      · simp [h]
      · exact absurd h hxy
      · simp [h]

/-- `str_le` is Python string `≤`. -/
theorem str_le_iff (a b : String) : str_le a b = true ↔ a ≤ b := by
  simp only [str_le, Bool.or_eq_true, beq_iff_eq, decide_eq_true_eq]
  constructor
  · rintro (rfl | h)
    · exact le_refl a
    · exact le_of_lt h
  · intro h
    rcases lt_or_eq_of_le h with h | h
    · exact Or.inr h
    · exact Or.inl h

/-- `ec_le` is transitive. -/
theorem ec_le_trans (a b c : ECGroup) :
    ec_le a b = true → ec_le b c = true → ec_le a c = true :=
  listLe_trans (sort_key a) (sort_key b) (sort_key c)

/-- `ec_le` is total. -/
theorem ec_le_total (a b : ECGroup) : (ec_le a b || ec_le b a) = true :=
  listLe_total (sort_key a) (sort_key b)

/-- `ookla_le` is transitive. -/
theorem ookla_le_trans (a b c : OoklaGroup) :
    ookla_le a b = true → ookla_le b c = true → ookla_le a c = true :=
  listLe_trans (ookla_key a) (ookla_key b) (ookla_key c)

/-- `ookla_le` is total. -/
theorem ookla_le_total (a b : OoklaGroup) : (ookla_le a b || ookla_le b a) = true :=
  listLe_total (ookla_key a) (ookla_key b)

/-! ### C3 — the end-to-end scenario -/

unseal List.merge List.mergeSort in
/-- C3: on the single scenario item, with the resolver answering
`v4=["203.0.113.5"]` and `v6=[]`, the Ookla pipeline's IPv4 output is
exactly the one expected group (including the `fqdn` label with the text
after the last `:` discarded) and the IPv6 output file is the empty
JSON array. -/
theorem c3_end_to_end_scenario :
    ookla_main [scenario_item] scenario_resolver = ([scenario_group], []) ∧
    (ookla_files [scenario_item] scenario_resolver).2 = "[]\n" :=
  ⟨rfl, rfl⟩


/-! ### C8 — heading split -/

unseal pySplitWs in
/-- C8: the heading split first whitespace-normalizes the heading; with a
comma present it returns the stripped text before the first comma as
city and the stripped text after it as country, otherwise the whole
normalized text as city with an empty country.  In particular
`"Lagos, Nigeria" ↦ ("Lagos", "Nigeria")`, `"Tokyo" ↦ ("Tokyo", "")`. -/
theorem c8_heading_split :
    split_city_country "Lagos, Nigeria" = ("Lagos", "Nigeria") ∧
    split_city_country "Tokyo" = ("Tokyo", "") ∧
    ∀ head : String,
      (',' ∈ (clean_text head).data →
        split_city_country head =
          (⟨pyStrip ((clean_text head).data.takeWhile (fun c => c != ','))⟩,
           ⟨pyStrip (((clean_text head).data.dropWhile (fun c => c != ',')).drop 1)⟩)) ∧
      (',' ∉ (clean_text head).data →
        split_city_country head = (clean_text head, "")) := by
  refine ⟨by decide, by decide, fun head => ⟨fun hmem => ?_, fun hmem => ?_⟩⟩
  · simp only [split_city_country, if_pos hmem]
  · simp only [split_city_country, if_neg hmem]

unseal pySplitWs in
/-- Witness for C8 at the heading `"Lagos, Nigeria"`. -/
theorem c8_heading_split_witness :
    ',' ∈ (clean_text "Lagos, Nigeria").data ∧
    split_city_country "Lagos, Nigeria" =
      (⟨pyStrip ((clean_text "Lagos, Nigeria").data.takeWhile (fun c => c != ','))⟩,
       ⟨pyStrip (((clean_text "Lagos, Nigeria").data.dropWhile (fun c => c != ',')).drop 1)⟩) :=
  have h : ',' ∈ (clean_text "Lagos, Nigeria").data := by decide
  ⟨h, (c8_heading_split.2.2 "Lagos, Nigeria").1 h⟩

/-! ### C9 — header-row rejection -/

/-- C9: a data row (no region heading) whose third cell's normalized text
is empty or case-insensitively `"ip"` / `"instance ip"` contributes no
record: the row loop yields the same output with or without the row.
Rows with fewer than three cells have an empty third cell and are covered
as well. -/
theorem c9_header_row_rejected (area ip_version city country : String)
    (r : Row) (rs : List Row)
    (hhead : r.region_heading = none)
    (hskip : clean_text (r.tds.getD 2 "") = "" ∨
      pyLower (clean_text (r.tds.getD 2 "")) = "ip" ∨
      pyLower (clean_text (r.tds.getD 2 "")) = "instance ip") :
    parse_rows area ip_version city country (r :: rs) =
      parse_rows area ip_version city country rs := by
  obtain ⟨rh, tds⟩ := r
  simp only at hhead hskip
  subst hhead
  simp only [parse_rows]
  by_cases hlen : tds.length ≥ 3
  · rw [if_pos hlen, if_pos]
    simp only [Bool.or_eq_true, decide_eq_true_eq]
    rcases hskip with h | h | h
    · exact Or.inl (Or.inl h)
    · exact Or.inl (Or.inr h)
    · exact Or.inr h
  · rw [if_neg hlen]

unseal pySplitWs in
/-- Witness for C9 at a literal `"Instance IP"` header row. -/
theorem c9_header_row_rejected_witness :
    header_row.region_heading = none ∧
    pyLower (clean_text (header_row.tds.getD 2 "")) = "instance ip" ∧
    parse_rows "Africa" "v4" "" "" [header_row] = parse_rows "Africa" "v4" "" "" [] :=
  have h1 : header_row.region_heading = none := rfl
  have h2 : pyLower (clean_text (header_row.tds.getD 2 "")) = "instance ip" := by decide
  ⟨h1, h2, c9_header_row_rejected "Africa" "v4" "" "" header_row [] h1 (Or.inr (Or.inr h2))⟩

/-! ### C7 — the deduplicator keeps exactly the first occurrences -/

/-- The membership-only `seen` set of `dedup` tracks exactly the keys of
the already-scanned prefix, so the two scans agree. -/
theorem dedup_go_eq_spec (l : List ECGroup) :
    ∀ (seen : List (List String × List (String × String))) (prev : List ECGroup),
      (∀ k, k ∈ seen ↔ k ∈ prev.map ec_key) →
      dedup_go seen l = spec_dedup_go prev l := by
  induction l with
  | nil => intro seen prev _; rfl
  | cons g gs ih =>
    intro seen prev h
    simp only [dedup_go, spec_dedup_go]
    by_cases hmem : ec_key g ∈ seen
    · rw [if_pos hmem, if_pos ((h _).1 hmem)]
      apply ih
      intro k
      rw [h k, List.map_append, List.mem_append]
      constructor
      · exact fun hk => Or.inl hk
      · rintro (hk | hk)
        · exact hk
        · simp only [List.map_cons, List.map_nil, List.mem_singleton] at hk
          subst hk
          exact (h _).1 hmem
    · rw [if_neg hmem, if_neg (fun hk => hmem ((h _).2 hk))]
      congr 1
      apply ih
      intro k
      simp only [List.mem_cons, h k, List.map_append, List.mem_append,
        List.map_cons, List.map_nil, List.mem_singleton]
      tauto

/-- C7: `dedup` returns exactly the subsequence of first occurrences
under the (targets, sorted label items) key — a group is kept iff its key
did not appear anywhere earlier in the input, in original position. -/
theorem c7_dedup_first_occurrences (l : List ECGroup) : dedup l = spec_dedup l :=
  dedup_go_eq_spec l [] [] (by simp)

/-! ### C5 — every written array is sorted by its source's composite key -/

/-- C5: in each of the five output arrays (EC2 combined/IPv4/IPv6, Ookla
IPv4/IPv6), every pair of elements in order — in particular every
adjacent pair — satisfies `key g1 ≤ key g2` for that source's composite
key (case-sensitive string comparison componentwise, missing label values
being the hard-coded `""` defaults). -/
theorem c5_outputs_sorted (v4_panels v6_panels : List Panel)
    (data : List OoklaItem) (r : Resolver) :
    ((ec2_main v4_panels v6_panels).all_groups.Pairwise
      (fun g1 g2 => ec_le g1 g2 = true)) ∧
    ((ec2_main v4_panels v6_panels).v4_sorted.Pairwise
      (fun g1 g2 => ec_le g1 g2 = true)) ∧
    ((ec2_main v4_panels v6_panels).v6_sorted.Pairwise
      (fun g1 g2 => ec_le g1 g2 = true)) ∧
    ((ookla_main data r).1.Pairwise (fun g1 g2 => ookla_le g1 g2 = true)) ∧
    ((ookla_main data r).2.Pairwise (fun g1 g2 => ookla_le g1 g2 = true)) := by
  refine ⟨?_, ?_, ?_, ?_, ?_⟩ <;>
    first
      | exact List.sorted_mergeSort ec_le_trans ec_le_total _
      | exact List.sorted_mergeSort ookla_le_trans ookla_le_total _

/-! ### C1 — duplicate-freedom of the written arrays

The EC2 script dedups each family before writing.  The Ookla script has
no deduplication at all, so a duplicated source item duplicates its group
in the written array: the claim fails there and survives in the EC2
pipeline. -/

unseal List.merge List.mergeSort in
/-- C1 counterexample: duplicating the scenario item in the Ookla source
array yields an IPv4 output file holding the same group twice, so the
"no two elements equal" property is violated. -/
theorem c1_no_duplicates_counterexample :
    (ookla_main [scenario_item, scenario_item] scenario_resolver).1 =
      [scenario_group, scenario_group] ∧
    ¬ ((ookla_main [scenario_item, scenario_item] scenario_resolver).1.Pairwise
        (fun g1 g2 => g1 ≠ g2)) := by
  constructor
  · rfl
  · decide

/-- The §4.4 key determines the whole group: the seven label keys are
fixed, so the sorted item list is injective in the label structure. -/
theorem ec_key_inj : ∀ g1 g2 : ECGroup, ec_key g1 = ec_key g2 → g1 = g2 := by
  rintro ⟨t1, p1, a1, r1, c1, k1, v1, s1⟩ ⟨t2, p2, a2, r2, c2, k2, v2, s2⟩ h
  simp only [ec_key, labels_items, Prod.mk.injEq, List.cons.injEq, and_true] at h
  obtain ⟨ht, ⟨-, ha⟩, ⟨-, hc⟩, ⟨-, hk⟩, ⟨-, hv⟩, ⟨-, hp⟩, ⟨-, hr⟩, hs⟩ := h
  simp only [Prod.mk.injEq, true_and] at hs
  subst ht ha hc hk hv hp hr hs
  rfl

/-- The groups surviving `dedup` have pairwise distinct keys, all of them
outside the initial `seen` set. -/
theorem dedup_go_key_nodup :
    ∀ (l : List ECGroup) (seen : List (List String × List (String × String))),
    ((dedup_go seen l).map ec_key).Nodup ∧
    ∀ k ∈ (dedup_go seen l).map ec_key, k ∉ seen
  | [], seen => ⟨List.nodup_nil, by simp [dedup_go]⟩
  | g :: gs, seen => by
    simp only [dedup_go]
    by_cases hmem : ec_key g ∈ seen
    · rw [if_pos hmem]
      exact dedup_go_key_nodup gs seen
    · rw [if_neg hmem]
      obtain ⟨ih1, ih2⟩ := dedup_go_key_nodup gs (ec_key g :: seen)
      refine ⟨List.nodup_cons.2 ⟨fun hk => ?_, ih1⟩, ?_⟩
      · exact (ih2 _ hk) (List.mem_cons_self _ _)
      · intro k hk
        simp only [List.map_cons, List.mem_cons] at hk
        rcases hk with rfl | hk
        · exact hmem
        · exact fun hks => (ih2 k hk) (List.mem_cons_of_mem _ hks)

/-- `dedup` output is duplicate-free as a list of groups. -/
theorem dedup_nodup (l : List ECGroup) : (dedup l).Nodup :=
  List.Nodup.of_map ec_key (dedup_go_key_nodup l []).1

/-- `dedup` only drops elements. -/
theorem dedup_go_subset :
    ∀ (l : List ECGroup) (seen : List (List String × List (String × String))),
    ∀ g ∈ dedup_go seen l, g ∈ l
  | [], _ => by simp [dedup_go]
  | g :: gs, seen => by
    simp only [dedup_go]
    by_cases hmem : ec_key g ∈ seen
    · rw [if_pos hmem]
      exact fun x hx => List.mem_cons_of_mem _ (dedup_go_subset gs seen x hx)
    · rw [if_neg hmem]
      intro x hx
      rcases List.mem_cons.1 hx with rfl | hx
      · exact List.mem_cons_self _ _
      · exact List.mem_cons_of_mem _ (dedup_go_subset gs _ x hx)

/-- Every record of the row loop carries the `ip_version` label derived
from the page variant. -/
theorem parse_rows_ip_version (area ipv : String) :
    ∀ (rows : List Row) (city country : String),
      ∀ g ∈ parse_rows area ipv city country rows,
        g.labels.ip_version = if ipv = "v6" then "6" else "4"
  | [], _, _ => by simp [parse_rows]
  | r :: rs, city, country => by
    intro g hg
    simp only [parse_rows] at hg
    rcases hrh : r.region_heading with _ | h
    · rw [hrh] at hg
      simp only at hg
      by_cases hlen : r.tds.length ≥ 3
      · rw [if_pos hlen] at hg
        split at hg
        · exact parse_rows_ip_version area ipv rs _ _ g hg
        · rcases List.mem_cons.1 hg with rfl | hg
          · rfl
          · exact parse_rows_ip_version area ipv rs _ _ g hg
      · rw [if_neg hlen] at hg
        exact parse_rows_ip_version area ipv rs _ _ g hg
    · rw [hrh] at hg
      simp only at hg
      exact parse_rows_ip_version area ipv rs _ _ g hg

/-- IPv4-page groups carry `ip_version = "4"`. -/
theorem parse_ipv4_ip_version (panels : List Panel) :
    ∀ g ∈ parse_ipv4 panels, g.labels.ip_version = "4" := by
  intro g hg
  rw [parse_ipv4, List.mem_flatMap] at hg
  obtain ⟨p, -, hg⟩ := hg
  rw [parse_table] at hg
  rcases ht : p.table with _ | rows
  · rw [ht] at hg; simp at hg
  · rw [ht] at hg
    simp only at hg
    have := parse_rows_ip_version _ "v4" rows "" "" g hg
    simpa using this

/-- IPv6-page groups carry `ip_version = "6"`. -/
theorem parse_ipv6_ip_version (panels : List Panel) :
    ∀ g ∈ parse_ipv6 panels, g.labels.ip_version = "6" := by
  intro g hg
  rw [parse_ipv6, List.mem_flatMap] at hg
  obtain ⟨p, -, hg⟩ := hg
  rw [parse_table] at hg
  rcases ht : p.table with _ | rows
  · rw [ht] at hg; simp at hg
  · rw [ht] at hg
    simp only at hg
    have := parse_rows_ip_version _ "v6" rows "" "" g hg
    simpa using this

/-- C1 amended: every output file of the EC2 pipeline is duplicate-free
under (targets, labels) equality; the Ookla pipeline applies no dedup, so
its files are duplicate-free only when no two retained source items
produce identical groups (see the counterexample). -/
theorem c1_no_duplicates_amended (v4_panels v6_panels : List Panel) :
    (ec2_main v4_panels v6_panels).all_groups.Nodup ∧
    (ec2_main v4_panels v6_panels).v4_sorted.Nodup ∧
    (ec2_main v4_panels v6_panels).v6_sorted.Nodup := by
  have h4 : (dedup (parse_ipv4 v4_panels)).Nodup := dedup_nodup _
  have h6 : (dedup (parse_ipv6 v6_panels)).Nodup := dedup_nodup _
  have hdisj : (dedup (parse_ipv4 v4_panels)).Disjoint
      (dedup (parse_ipv6 v6_panels)) := by
    intro g hg4 hg6
    have e4 := parse_ipv4_ip_version v4_panels g (dedup_go_subset _ _ g hg4)
    have e6 := parse_ipv6_ip_version v6_panels g (dedup_go_subset _ _ g hg6)
    rw [e4] at e6
    exact absurd e6 (by decide)
  have happ : ((dedup (parse_ipv4 v4_panels)) ++
      (dedup (parse_ipv6 v6_panels))).Nodup :=
    List.nodup_append.2 ⟨h4, h6, hdisj⟩
  refine ⟨?_, ?_, ?_⟩
  · exact ((List.mergeSort_perm _ ec_le).symm.nodup) happ
  · exact ((List.mergeSort_perm _ ec_le).symm.nodup) h4
  · exact ((List.mergeSort_perm _ ec_le).symm.nodup) h6

/-! ### C2 — family purity of the written targets

Neither script validates address syntax: the EC2 parser copies the third
table cell verbatim, the Ookla script copies whatever the resolver
returned.  Family purity therefore fails on a page carrying a non-IP
cell, and holds only as far as the inputs are family-pure. -/

unseal List.merge List.mergeSort pySplitWs in
/-- C2 counterexample: a v4-page data row whose address cell reads
`"not-an-ip"` puts that very string into the IPv4-designated output, and
it is not a syntactically valid IPv4 literal. -/
theorem c2_family_purity_counterexample :
    "not-an-ip" ∈
      ((ec2_main [Panel.mk (some "Africa") (some [bad_row])] []).v4_sorted.flatMap
        (fun g => g.targets)) ∧
    isIPv4 "not-an-ip" = false := by
  constructor
  · decide
  · decide

/-- `sorted(set(l))` only reorders: its members come from `l`. -/
theorem pySortedSet_subset (l : List String) : ∀ t ∈ pySortedSet l, t ∈ l := by
  intro t ht
  rw [pySortedSet] at ht
  exact List.mem_dedup.1 ((List.mergeSort_perm l.dedup str_le).mem_iff.1 ht)

/-- Every group the Ookla item loop puts into the v4 list carries the
`v4` family label and the sorted v4 resolution of some host. -/
theorem ookla_groups_v4_shape : ∀ (data : List OoklaItem) (r : Resolver),
    ∀ g ∈ (ookla_groups r data).1,
      g.labels.ip_family = "v4" ∧
      ∃ host, g.targets = pySortedSet ((r host).1.getD [])
  | [], _ => by simp [ookla_groups]
  | item :: rest, r => by
    intro g hg
    simp only [ookla_groups] at hg
    by_cases hc : item.country = some "Japan"
    · rw [if_pos hc] at hg
      rcases hh : item.host with _ | host_field
      · rw [hh] at hg
        exact ookla_groups_v4_shape rest r g hg
      · rw [hh] at hg
        simp only at hg
        by_cases hne : host_field = ""
        · rw [if_pos hne] at hg
          exact ookla_groups_v4_shape rest r g hg
        · rw [if_neg hne] at hg
          rcases List.mem_append.1 hg with hg | hg
          · split at hg
            · simp at hg
            · rcases List.mem_singleton.1 hg with rfl
              exact ⟨rfl, strip_port host_field, rfl⟩
          · exact ookla_groups_v4_shape rest r g hg
    · rw [if_neg hc] at hg
      exact ookla_groups_v4_shape rest r g hg

/-- v6 counterpart of `ookla_groups_v4_shape`. -/
theorem ookla_groups_v6_shape : ∀ (data : List OoklaItem) (r : Resolver),
    ∀ g ∈ (ookla_groups r data).2,
      g.labels.ip_family = "v6" ∧
      ∃ host, g.targets = pySortedSet ((r host).2.getD [])
  | [], _ => by simp [ookla_groups]
  | item :: rest, r => by
    intro g hg
    simp only [ookla_groups] at hg
    by_cases hc : item.country = some "Japan"
    · rw [if_pos hc] at hg
      rcases hh : item.host with _ | host_field
      · rw [hh] at hg
        exact ookla_groups_v6_shape rest r g hg
      · rw [hh] at hg
        simp only at hg
        by_cases hne : host_field = ""
        · rw [if_pos hne] at hg
          exact ookla_groups_v6_shape rest r g hg
        · rw [if_neg hne] at hg
          rcases List.mem_append.1 hg with hg | hg
          · split at hg
            · simp at hg
            · rcases List.mem_singleton.1 hg with rfl
              exact ⟨rfl, strip_port host_field, rfl⟩
          · exact ookla_groups_v6_shape rest r g hg
    · rw [if_neg hc] at hg
      exact ookla_groups_v6_shape rest r g hg

/-- Every record of the row loop carries exactly one target: the cleaned
text of some row's third cell. -/
theorem parse_rows_targets (area ipv : String) :
    ∀ (rows : List Row) (city country : String),
      ∀ g ∈ parse_rows area ipv city country rows,
        ∃ row ∈ rows, g.targets = [clean_text (row.tds.getD 2 "")]
  | [], _, _ => by simp [parse_rows]
  | r :: rs, city, country => by
    intro g hg
    simp only [parse_rows] at hg
    rcases hrh : r.region_heading with _ | h
    · rw [hrh] at hg
      simp only at hg
      by_cases hlen : r.tds.length ≥ 3
      · rw [if_pos hlen] at hg
        split at hg
        · obtain ⟨row, hrow, ht⟩ := parse_rows_targets area ipv rs _ _ g hg
          exact ⟨row, List.mem_cons_of_mem _ hrow, ht⟩
        · rcases List.mem_cons.1 hg with rfl | hg
          · exact ⟨r, List.mem_cons_self _ _, rfl⟩
          · obtain ⟨row, hrow, ht⟩ := parse_rows_targets area ipv rs _ _ g hg
            exact ⟨row, List.mem_cons_of_mem _ hrow, ht⟩
      · rw [if_neg hlen] at hg
        obtain ⟨row, hrow, ht⟩ := parse_rows_targets area ipv rs _ _ g hg
        exact ⟨row, List.mem_cons_of_mem _ hrow, ht⟩
    · rw [hrh] at hg
      simp only at hg
      obtain ⟨row, hrow, ht⟩ := parse_rows_targets area ipv rs _ _ g hg
      exact ⟨row, List.mem_cons_of_mem _ hrow, ht⟩

/-- `parse_table` provenance: each group's single target is the cleaned
third cell of a row of the panel's table. -/
theorem parse_table_targets (p : Panel) (ipv : String) :
    ∀ g ∈ parse_table p ipv,
      ∃ row ∈ p.table.getD [], g.targets = [clean_text (row.tds.getD 2 "")] := by
  intro g hg
  rw [parse_table] at hg
  rcases ht : p.table with _ | rows
  · rw [ht] at hg; simp at hg
  · rw [ht] at hg
    simp only at hg
    obtain ⟨row, hrow, h⟩ := parse_rows_targets _ ipv rows "" "" g hg
    exact ⟨row, by simp [ht, hrow], h⟩

/-- C2 amended: every group of a family-designated output carries the
matching family label, and every target string is copied verbatim — from
a third-column cell of that family's page (EC2) or from the resolver's
answer for that family (Ookla).  The scripts never check address syntax,
so the addresses are valid IPv4/IPv6 literals of the right family exactly
when those inputs are (see the counterexample). -/
theorem c2_family_purity_amended (v4_panels v6_panels : List Panel)
    (data : List OoklaItem) (r : Resolver) :
    (∀ g ∈ (ec2_main v4_panels v6_panels).v4_sorted,
        g.labels.ip_version = "4" ∧
        ∃ p ∈ v4_panels, ∃ row ∈ p.table.getD [],
          g.targets = [clean_text (row.tds.getD 2 "")]) ∧
    (∀ g ∈ (ec2_main v4_panels v6_panels).v6_sorted,
        g.labels.ip_version = "6" ∧
        ∃ p ∈ v6_panels, ∃ row ∈ p.table.getD [],
          g.targets = [clean_text (row.tds.getD 2 "")]) ∧
    (∀ g ∈ (ookla_main data r).1,
        g.labels.ip_family = "v4" ∧
        ∃ host, ∀ t ∈ g.targets, t ∈ (r host).1.getD []) ∧
    (∀ g ∈ (ookla_main data r).2,
        g.labels.ip_family = "v6" ∧
        ∃ host, ∀ t ∈ g.targets, t ∈ (r host).2.getD []) := by
  refine ⟨?_, ?_, ?_, ?_⟩
  · intro g hg
    have hmem : g ∈ dedup (parse_ipv4 v4_panels) :=
      (List.mergeSort_perm _ ec_le).mem_iff.1 hg
    have hsrc : g ∈ parse_ipv4 v4_panels := dedup_go_subset _ _ g hmem
    refine ⟨parse_ipv4_ip_version v4_panels g hsrc, ?_⟩
    rw [parse_ipv4, List.mem_flatMap] at hsrc
    obtain ⟨p, hp, hgp⟩ := hsrc
    obtain ⟨row, hrow, ht⟩ := parse_table_targets p "v4" g hgp
    exact ⟨p, hp, row, hrow, ht⟩
  · intro g hg
    have hmem : g ∈ dedup (parse_ipv6 v6_panels) :=
      (List.mergeSort_perm _ ec_le).mem_iff.1 hg
    have hsrc : g ∈ parse_ipv6 v6_panels := dedup_go_subset _ _ g hmem
    refine ⟨parse_ipv6_ip_version v6_panels g hsrc, ?_⟩
    rw [parse_ipv6, List.mem_flatMap] at hsrc
    obtain ⟨p, hp, hgp⟩ := hsrc
    obtain ⟨row, hrow, ht⟩ := parse_table_targets p "v6" g hgp
    exact ⟨p, hp, row, hrow, ht⟩
  · intro g hg
    have hmem : g ∈ (ookla_groups r data).1 :=
      (List.mergeSort_perm _ ookla_le).mem_iff.1 hg
    obtain ⟨hfam, host, htg⟩ := ookla_groups_v4_shape data r g hmem
    refine ⟨hfam, host, fun t ht => ?_⟩
    rw [htg] at ht
    exact pySortedSet_subset _ t ht
  · intro g hg
    have hmem : g ∈ (ookla_groups r data).2 :=
      (List.mergeSort_perm _ ookla_le).mem_iff.1 hg
    obtain ⟨hfam, host, htg⟩ := ookla_groups_v6_shape data r g hmem
    refine ⟨hfam, host, fun t ht => ?_⟩
    rw [htg] at ht
    exact pySortedSet_subset _ t ht

/-! ### C6 — one group per non-empty address family -/

/-- `sort_groups` fixes the empty list. -/
theorem sort_groups_nil : sort_groups [] = [] := List.mergeSort_nil

/-- `sort_groups` fixes singletons. -/
theorem sort_groups_singleton (g : OoklaGroup) : sort_groups [g] = [g] :=
  List.mergeSort_singleton g

/-- C6: for a retained item with a hostname, a family's group appears in
the output iff that family's resolved list is non-empty; a host resolving
only to IPv6 yields exactly one group carrying the `v6` family label and
no v4 group; a family whose lookup raises `gaierror` contributes an empty
list rather than an error. -/
theorem c6_partial_resolution (item : OoklaItem) (r : Resolver) (h : String)
    (hc : item.country = some "Japan") (hh : item.host = some h) (hne : h ≠ "") :
    ((ookla_main [item] r).1 ≠ [] ↔ (resolve_addrs r (strip_port h)).1 ≠ []) ∧
    ((ookla_main [item] r).2 ≠ [] ↔ (resolve_addrs r (strip_port h)).2 ≠ []) ∧
    ((resolve_addrs r (strip_port h)).1 = [] →
      (resolve_addrs r (strip_port h)).2 ≠ [] →
      (ookla_main [item] r).1 = [] ∧
      (ookla_main [item] r).2 =
        [make_group (resolve_addrs r (strip_port h)).2
          (ookla_base item (strip_port h) "v6")]) ∧
    (∀ host, (r host).1 = none → (resolve_addrs r host).1 = []) := by
  have hgo : ookla_groups r [item] =
      ((if (resolve_addrs r (strip_port h)).1.isEmpty then []
        else [make_group (resolve_addrs r (strip_port h)).1
          (ookla_base item (strip_port h) "v4")]),
       (if (resolve_addrs r (strip_port h)).2.isEmpty then []
        else [make_group (resolve_addrs r (strip_port h)).2
          (ookla_base item (strip_port h) "v6")])) := by
    simp [ookla_groups, hc, hh, hne]
  have hmain : ookla_main [item] r =
      (sort_groups (if (resolve_addrs r (strip_port h)).1.isEmpty then []
        else [make_group (resolve_addrs r (strip_port h)).1
          (ookla_base item (strip_port h) "v4")]),
       sort_groups (if (resolve_addrs r (strip_port h)).2.isEmpty then []
        else [make_group (resolve_addrs r (strip_port h)).2
          (ookla_base item (strip_port h) "v6")])) := by
    rw [ookla_main, hgo]
  refine ⟨?_, ?_, ?_, ?_⟩
  · rw [hmain]
    by_cases he : (resolve_addrs r (strip_port h)).1.isEmpty
    · rw [if_pos he, sort_groups_nil]
      simp [List.isEmpty_iff] at he
      simp [he]
    · rw [if_neg he, sort_groups_singleton]
      simp [List.isEmpty_iff] at he
      simp [he]
  · rw [hmain]
    by_cases he : (resolve_addrs r (strip_port h)).2.isEmpty
    · rw [if_pos he, sort_groups_nil]
      simp [List.isEmpty_iff] at he
      simp [he]
    · rw [if_neg he, sort_groups_singleton]
      simp [List.isEmpty_iff] at he
      simp [he]
  · intro h1 h2
    rw [hmain]
    constructor
    · rw [if_pos (List.isEmpty_iff.2 h1), sort_groups_nil]
    · rw [if_neg (fun he => h2 (List.isEmpty_iff.1 he)), sort_groups_singleton]
  · intro host hnone
    rw [resolve_addrs, hnone]
    simp [pySortedSet, List.mergeSort_nil]

unseal List.merge List.mergeSort in
/-- Witness for C6: the scenario item with an IPv6-only resolver gets
exactly one v6 group and no v4 group. -/
theorem c6_partial_resolution_witness :
    scenario_item.country = some "Japan" ∧
    scenario_item.host = some "a.example.net:8080" ∧
    ((ookla_main [scenario_item] v6_only_resolver).1 = [] ∧
     (ookla_main [scenario_item] v6_only_resolver).2 =
       [make_group (resolve_addrs v6_only_resolver (strip_port "a.example.net:8080")).2
          (ookla_base scenario_item (strip_port "a.example.net:8080") "v6")]) :=
  have hc : scenario_item.country = some "Japan" := rfl
  have hh : scenario_item.host = some "a.example.net:8080" := rfl
  have hne : "a.example.net:8080" ≠ "" := by decide
  have h1 : (resolve_addrs v6_only_resolver (strip_port "a.example.net:8080")).1 = [] := by
    decide
  have h2 : (resolve_addrs v6_only_resolver (strip_port "a.example.net:8080")).2 ≠ [] := by
    decide
  ⟨hc, hh, (c6_partial_resolution scenario_item v6_only_resolver
      "a.example.net:8080" hc hh hne).2.2.1 h1 h2⟩

/-! ### C4 — determinism of the written bytes

In the pure embedding, re-running on identical inputs is definitional
equality; the substantive content of the claim is independence from
enumeration order — `resolve_addrs` sorts the deduplicated answer set, so
any two resolver enumerations of the same address sets (in any order,
with any repetitions, and with an empty-list answer or a `gaierror`
equally) produce byte-identical output files. -/

/-- `str_le` is transitive. -/
theorem str_le_trans (a b c : String) :
    str_le a b = true → str_le b c = true → str_le a c = true := by
  simp only [str_le_iff]
  exact le_trans

/-- `str_le` is total. -/
theorem str_le_total (a b : String) : (str_le a b || str_le b a) = true := by
  rcases le_total a b with h | h
  · simp [str_le_iff, h]
  · simp [str_le_iff, h]

/-- `sorted(set(l))` is duplicate-free. -/
theorem pySortedSet_nodup (l : List String) : (pySortedSet l).Nodup :=
  ((List.mergeSort_perm l.dedup str_le).symm.nodup) l.nodup_dedup

/-- Membership in `sorted(set(l))` is membership in `l`. -/
theorem pySortedSet_mem (l : List String) (a : String) :
    a ∈ pySortedSet l ↔ a ∈ l := by
  rw [pySortedSet, (List.mergeSort_perm l.dedup str_le).mem_iff, List.mem_dedup]

/-- `sorted(set(l))` is sorted. -/
theorem pySortedSet_sorted (l : List String) :
    (pySortedSet l).Pairwise (fun a b => str_le a b = true) :=
  List.sorted_mergeSort str_le_trans str_le_total l.dedup

/-- A sorted duplicate-free list is determined by its member set: two
membership-equal inputs give the same `sorted(set(...))`. -/
theorem pySortedSet_ext (l1 l2 : List String) (h : ∀ a, a ∈ l1 ↔ a ∈ l2) :
    pySortedSet l1 = pySortedSet l2 := by
  haveI : IsAntisymm String (fun a b => str_le a b = true) :=
    ⟨fun a b h1 h2 => le_antisymm ((str_le_iff a b).1 h1) ((str_le_iff b a).1 h2)⟩
  have hperm : (pySortedSet l1).Perm (pySortedSet l2) :=
    (List.perm_ext_iff_of_nodup (pySortedSet_nodup l1) (pySortedSet_nodup l2)).2
      (fun a => by rw [pySortedSet_mem, pySortedSet_mem, h a])
  exact List.eq_of_perm_of_sorted hperm (pySortedSet_sorted l1) (pySortedSet_sorted l2)

/-- The item loop only sees the resolver through `resolve_addrs`. -/
theorem ookla_groups_ext : ∀ (data : List OoklaItem) (r1 r2 : Resolver),
    (∀ host, resolve_addrs r1 host = resolve_addrs r2 host) →
    ookla_groups r1 data = ookla_groups r2 data
  | [], _, _, _ => rfl
  | item :: rest, r1, r2, h => by
    simp only [ookla_groups, ookla_groups_ext rest r1 r2 h, h]

/-- C4: with the same source data, two runs whose resolver answers agree
as sets per host and family (whatever their enumeration order or
repetitions, `gaierror` equal to an empty answer) write byte-identical
Ookla output files; the EC2 pipeline is a pure function of its two pages,
so re-running it reproduces its bytes. -/
theorem c4_determinism (data : List OoklaItem) (r1 r2 : Resolver)
    (hr : ∀ host,
      ((r1 host).1.getD [] ⊆ (r2 host).1.getD [] ∧
       (r2 host).1.getD [] ⊆ (r1 host).1.getD []) ∧
      ((r1 host).2.getD [] ⊆ (r2 host).2.getD [] ∧
       (r2 host).2.getD [] ⊆ (r1 host).2.getD [])) :
    ookla_files data r1 = ookla_files data r2 ∧
    ∀ v4_panels v6_panels,
      ec2_files v4_panels v6_panels = ec2_files v4_panels v6_panels := by
  constructor
  · have hres : ∀ host, resolve_addrs r1 host = resolve_addrs r2 host := by
      intro host
      obtain ⟨⟨h1, h2⟩, h3, h4⟩ := hr host
      rw [resolve_addrs, resolve_addrs,
        pySortedSet_ext _ _ (fun a => ⟨fun ha => h1 ha, fun ha => h2 ha⟩),
        pySortedSet_ext _ _ (fun a => ⟨fun ha => h3 ha, fun ha => h4 ha⟩)]
    rw [ookla_files, ookla_files, ookla_main, ookla_main,
      ookla_groups_ext data r1 r2 hres]
  · intro _ _
    rfl

unseal List.merge List.mergeSort in
/-- Witness for C4: two resolvers answering the same set in different
orders and multiplicities give byte-identical files. -/
theorem c4_determinism_witness :
    (∀ host,
      ((order_resolver_a host).1.getD [] ⊆ (order_resolver_b host).1.getD [] ∧
       (order_resolver_b host).1.getD [] ⊆ (order_resolver_a host).1.getD []) ∧
      ((order_resolver_a host).2.getD [] ⊆ (order_resolver_b host).2.getD [] ∧
       (order_resolver_b host).2.getD [] ⊆ (order_resolver_a host).2.getD [])) ∧
    ookla_files [scenario_item] order_resolver_a =
      ookla_files [scenario_item] order_resolver_b :=
  have hr : ∀ host,
      ((order_resolver_a host).1.getD [] ⊆ (order_resolver_b host).1.getD [] ∧
       (order_resolver_b host).1.getD [] ⊆ (order_resolver_a host).1.getD []) ∧
      ((order_resolver_a host).2.getD [] ⊆ (order_resolver_b host).2.getD [] ∧
       (order_resolver_b host).2.getD [] ⊆ (order_resolver_a host).2.getD []) :=
    fun _ => by
      simp only [order_resolver_a, order_resolver_b, Option.getD_some, Option.getD_none]
      refine ⟨⟨?_, ?_⟩, ?_, ?_⟩ <;> decide
  ⟨hr, (c4_determinism [scenario_item] order_resolver_a order_resolver_b hr).1⟩

/-! ### C10 — `clean_text` is an idempotent whitespace normalizer -/

/-- Unfold `" ".join` on no words. -/
theorem intercalate_sp_nil : List.intercalate [' '] ([] : List (List Char)) = [] := by
  simp [List.intercalate]

/-- Unfold `" ".join` on one word. -/
theorem intercalate_sp_single (w : List Char) : List.intercalate [' '] [w] = w := by
  simp [List.intercalate]

/-- Unfold `" ".join` on two or more words. -/
theorem intercalate_sp_cons (w v : List Char) (ws : List (List Char)) :
    List.intercalate [' '] (w :: v :: ws) =
      w ++ ' ' :: List.intercalate [' '] (v :: ws) := by
  simp [List.intercalate, List.intersperse]

/-- `pySplitWs` on the empty list. -/
theorem pySplitWs_nil : pySplitWs [] = [] := by rw [pySplitWs]

/-- The ASCII space is Python whitespace. -/
theorem space_is_space : isPySpace ' ' = true := by decide

/-- Every word `str.split()` produces is non-empty and whitespace-free. -/
theorem pySplitWs_words (l : List Char) :
    ∀ w ∈ pySplitWs l, w ≠ [] ∧ ∀ c ∈ w, isPySpace c = false := by
  induction l using pySplitWs.induct with
  | case1 => simp [pySplitWs]
  | case2 c cs hsp ih =>
    intro w hw
    rw [pySplitWs, if_pos hsp] at hw
    exact ih w hw
  | case3 c cs hsp ih =>
    intro w hw
    rw [pySplitWs, if_neg hsp] at hw
    rcases List.mem_cons.1 hw with rfl | hw
    · refine ⟨by simp, ?_⟩
      intro d hd
      rcases List.mem_cons.1 hd with rfl | hd
      · simpa using hsp
      · simpa using List.mem_takeWhile_imp hd
    · exact ih w hw

/-- Scanning for non-whitespace stops exactly at the separator after a
whitespace-free word. -/
theorem takeWhile_word : ∀ (w rest : List Char), (∀ c ∈ w, isPySpace c = false) →
    (w ++ ' ' :: rest).takeWhile (fun d => !isPySpace d) = w
  | [], rest, _ => by simp [List.takeWhile_cons, space_is_space]
  | c :: w, rest, h => by
    have hc : isPySpace c = false := h c (List.mem_cons_self _ _)
    simp only [List.cons_append, List.takeWhile_cons, hc]
    simp [takeWhile_word w rest (fun d hd => h d (List.mem_cons_of_mem _ hd))]

/-- Companion of `takeWhile_word` for the rest of the scan. -/
theorem dropWhile_word : ∀ (w rest : List Char), (∀ c ∈ w, isPySpace c = false) →
    (w ++ ' ' :: rest).dropWhile (fun d => !isPySpace d) = ' ' :: rest
  | [], rest, _ => by simp [List.dropWhile_cons, space_is_space]
  | c :: w, rest, h => by
    have hc : isPySpace c = false := h c (List.mem_cons_self _ _)
    simp only [List.cons_append, List.dropWhile_cons, hc]
    simp [dropWhile_word w rest (fun d hd => h d (List.mem_cons_of_mem _ hd))]

/-- Splitting the single-space join of non-empty whitespace-free words
recovers the words. -/
theorem pySplitWs_roundtrip :
    ∀ ws : List (List Char),
      (∀ w ∈ ws, w ≠ [] ∧ ∀ c ∈ w, isPySpace c = false) →
      pySplitWs (List.intercalate [' '] ws) = ws
  | [], _ => by simp [intercalate_sp_nil, pySplitWs]
  | [w], h => by
    obtain ⟨hne, hns⟩ := h w (List.mem_singleton.2 rfl)
    rw [intercalate_sp_single]
    rcases w with _ | ⟨c, w'⟩
    · exact absurd rfl hne
    · have hc : isPySpace c = false := hns c (List.mem_cons_self _ _)
      have hw' : ∀ c ∈ w', isPySpace c = false :=
        fun d hd => hns d (List.mem_cons_of_mem _ hd)
      rw [pySplitWs, if_neg (by simp [hc])]
      rw [List.takeWhile_eq_self_iff.2 (fun d hd => by simp [hw' d hd]),
        List.dropWhile_eq_nil_iff.2 (fun d hd => by simp [hw' d hd]),
        pySplitWs_nil]
  | w :: v :: ws, h => by
    obtain ⟨hne, hns⟩ := h w (List.mem_cons_self _ _)
    have hrest : ∀ u ∈ v :: ws, u ≠ [] ∧ ∀ c ∈ u, isPySpace c = false :=
      fun u hu => h u (List.mem_cons_of_mem _ hu)
    rw [intercalate_sp_cons]
    rcases w with _ | ⟨c, w'⟩
    · exact absurd rfl hne
    · have hc : isPySpace c = false := hns c (List.mem_cons_self _ _)
      have hw' : ∀ c ∈ w', isPySpace c = false :=
        fun d hd => hns d (List.mem_cons_of_mem _ hd)
      rw [List.cons_append, pySplitWs, if_neg (by simp [hc])]
      rw [takeWhile_word w' _ hw', dropWhile_word w' _ hw']
      rw [pySplitWs, if_pos space_is_space]
      rw [pySplitWs_roundtrip (v :: ws) hrest]

/-- The join of a non-empty word onto more words is non-empty. -/
theorem intercalate_sp_ne_nil : ∀ (w : List Char) (ws : List (List Char)), w ≠ [] →
    List.intercalate [' '] (w :: ws) ≠ []
  | w, [], hne => by rw [intercalate_sp_single]; exact hne
  | w, v :: ws, hne => by
    rw [intercalate_sp_cons]
    rcases w with _ | ⟨c, w'⟩
    · exact absurd rfl hne
    · simp

/-- The join of good words is empty or starts with a non-space. -/
theorem intercalate_sp_head : ∀ ws : List (List Char),
    (∀ w ∈ ws, w ≠ [] ∧ ∀ c ∈ w, isPySpace c = false) →
    List.intercalate [' '] ws = [] ∨
    ∃ c l', List.intercalate [' '] ws = c :: l' ∧ isPySpace c = false
  | [], _ => Or.inl intercalate_sp_nil
  | [w], h => by
    obtain ⟨hne, hns⟩ := h w (List.mem_singleton.2 rfl)
    rcases w with _ | ⟨c, w'⟩
    · exact absurd rfl hne
    · exact Or.inr ⟨c, w', by rw [intercalate_sp_single],
        hns c (List.mem_cons_self _ _)⟩
  | w :: v :: ws, h => by
    obtain ⟨hne, hns⟩ := h w (List.mem_cons_self _ _)
    rcases w with _ | ⟨c, w'⟩
    · exact absurd rfl hne
    · exact Or.inr ⟨c, w' ++ ' ' :: List.intercalate [' '] (v :: ws),
        by rw [intercalate_sp_cons, List.cons_append],
        hns c (List.mem_cons_self _ _)⟩

/-- The join of good words is empty or ends with a non-space. -/
theorem intercalate_sp_last : ∀ ws : List (List Char),
    (∀ w ∈ ws, w ≠ [] ∧ ∀ c ∈ w, isPySpace c = false) →
    List.intercalate [' '] ws = [] ∨
    ∃ c l', List.intercalate [' '] ws = l' ++ [c] ∧ isPySpace c = false
  | [], _ => Or.inl intercalate_sp_nil
  | [w], h => by
    obtain ⟨hne, hns⟩ := h w (List.mem_singleton.2 rfl)
    rcases List.eq_nil_or_concat w with rfl | ⟨l', a, rfl⟩
    · exact absurd rfl hne
    · refine Or.inr ⟨a, l', by rw [intercalate_sp_single, List.concat_eq_append], ?_⟩
      exact hns a (by simp [List.concat_eq_append])
  | w :: v :: ws, h => by
    obtain ⟨hne, hns⟩ := h w (List.mem_cons_self _ _)
    have hrest : ∀ u ∈ v :: ws, u ≠ [] ∧ ∀ c ∈ u, isPySpace c = false :=
      fun u hu => h u (List.mem_cons_of_mem _ hu)
    rcases intercalate_sp_last (v :: ws) hrest with hnil | ⟨c, l', heq, hc⟩
    · exact absurd hnil (intercalate_sp_ne_nil v ws (hrest v (List.mem_cons_self _ _)).1)
    · refine Or.inr ⟨c, w ++ ' ' :: l', ?_, hc⟩
      rw [intercalate_sp_cons, heq]
      simp

/-- Every character of the join is the separator or a word character. -/
theorem intercalate_sp_mem : ∀ (ws : List (List Char)) (c : Char),
    c ∈ List.intercalate [' '] ws → c = ' ' ∨ ∃ w ∈ ws, c ∈ w
  | [], c, hc => by rw [intercalate_sp_nil] at hc; simp at hc
  | [w], c, hc => by
    rw [intercalate_sp_single] at hc
    exact Or.inr ⟨w, List.mem_singleton.2 rfl, hc⟩
  | w :: v :: ws, c, hc => by
    rw [intercalate_sp_cons] at hc
    rcases List.mem_append.1 hc with hc | hc
    · exact Or.inr ⟨w, List.mem_cons_self _ _, hc⟩
    · rcases List.mem_cons.1 hc with rfl | hc
      · exact Or.inl rfl
      · rcases intercalate_sp_mem (v :: ws) c hc with h | ⟨u, hu, hcu⟩
        · exact Or.inl h
        · exact Or.inr ⟨u, List.mem_cons_of_mem _ hu, hcu⟩

/-- NBSP (U+00A0) is Python whitespace. -/
theorem nbsp_is_space (c : Char) (h : c.toNat = 0xa0) : isPySpace c = true := by
  simp [isPySpace, h]

/-- The ASCII space is not NBSP. -/
theorem space_toNat : (' ' : Char).toNat = 32 := by decide

/-- A list with a non-space head and a non-space last element is fixed by
`str.strip()`. -/
theorem pyStrip_eq_self (l : List Char)
    (hhead : l = [] ∨ ∃ c l', l = c :: l' ∧ isPySpace c = false)
    (hlast : l = [] ∨ ∃ c l', l = l' ++ [c] ∧ isPySpace c = false) :
    pyStrip l = l := by
  rcases hhead with rfl | ⟨c, l', rfl, hc⟩
  · rfl
  · have h1 : List.dropWhile isPySpace (c :: l') = c :: l' := by
      simp [List.dropWhile_cons, hc]
    rcases hlast with heq | ⟨a, l'', heq, ha⟩
    · exact absurd heq (by simp)
    · rw [pyStrip, h1, heq, List.reverse_append]
      have h2 : List.dropWhile isPySpace ([a].reverse ++ l''.reverse) =
          [a].reverse ++ l''.reverse := by
        simp [List.dropWhile_cons, ha]
      rw [h2]
      simp

/-- A pointwise-fixed map is the identity on the list. -/
theorem map_fix_of_mem {f : Char → Char} :
    ∀ l : List Char, (∀ c ∈ l, f c = c) → l.map f = l
  | [], _ => rfl
  | c :: l, h => by
    rw [List.map_cons, h c (List.mem_cons_self _ _),
      map_fix_of_mem l (fun d hd => h d (List.mem_cons_of_mem _ hd))]

/-- A whitespace-free character list has no adjacent double space. -/
theorem chain'_of_nonspace :
    ∀ l : List Char, (∀ c ∈ l, isPySpace c = false) →
      List.Chain' (fun a b => ¬(a = ' ' ∧ b = ' ')) l
  | [], _ => List.chain'_nil
  | [c], _ => List.chain'_singleton c
  | c1 :: c2 :: l, h => by
    rw [List.chain'_cons]
    refine ⟨fun hp => ?_,
      chain'_of_nonspace (c2 :: l) (fun d hd => h d (List.mem_cons_of_mem _ hd))⟩
    obtain ⟨rfl, -⟩ := hp
    have hsp := h ' ' (List.mem_cons_self _ _)
    rw [space_is_space] at hsp
    simp at hsp

/-- The single-space join of good words never holds two adjacent
spaces. -/
theorem intercalate_sp_chain' :
    ∀ ws : List (List Char),
      (∀ w ∈ ws, w ≠ [] ∧ ∀ c ∈ w, isPySpace c = false) →
      List.Chain' (fun a b => ¬(a = ' ' ∧ b = ' ')) (List.intercalate [' '] ws)
  | [], _ => by rw [intercalate_sp_nil]; exact List.chain'_nil
  | [w], h => by
    rw [intercalate_sp_single]
    exact chain'_of_nonspace w (h w (List.mem_singleton.2 rfl)).2
  | w :: v :: ws, h => by
    have hrest : ∀ u ∈ v :: ws, u ≠ [] ∧ ∀ c ∈ u, isPySpace c = false :=
      fun u hu => h u (List.mem_cons_of_mem _ hu)
    rw [intercalate_sp_cons, List.chain'_append]
    refine ⟨chain'_of_nonspace w (h w (List.mem_cons_self _ _)).2, ?_, ?_⟩
    · rw [List.chain'_cons']
      refine ⟨?_, intercalate_sp_chain' (v :: ws) hrest⟩
      intro y hy hp
      obtain ⟨-, rfl⟩ := hp
      rcases intercalate_sp_head (v :: ws) hrest with hnil | ⟨c, l', heq, hc⟩
      · exact intercalate_sp_ne_nil v ws (hrest v (List.mem_cons_self _ _)).1 hnil
      · rw [heq] at hy
        simp only [List.head?_cons, Option.mem_def, Option.some.injEq] at hy
        rw [hy, space_is_space] at hc
        simp at hc
    · intro x hx y hy hp
      obtain ⟨rfl, -⟩ := hp
      have hmem : ' ' ∈ w := List.mem_of_mem_getLast? hx
      have hsp := (h w (List.mem_cons_self _ _)).2 ' ' hmem
      rw [space_is_space] at hsp
      simp at hsp

/-- C10: `clean_text` is idempotent, and its output carries no leading or
trailing whitespace (it is a `strip` fixed point), no two adjacent
spaces, and no non-breaking-space code point. -/
theorem c10_clean_text_normalizer (s : String) :
    clean_text (clean_text s) = clean_text s ∧
    pyStrip (clean_text s).data = (clean_text s).data ∧
    List.Chain' (fun a b => ¬(a = ' ' ∧ b = ' ')) (clean_text s).data ∧
    ∀ c ∈ (clean_text s).data, c.toNat ≠ 0xa0 := by
  have hok : ∀ w ∈ pySplitWs (replaceNbsp (pyStrip s.data)),
      w ≠ [] ∧ ∀ c ∈ w, isPySpace c = false := pySplitWs_words _
  have hdata : (clean_text s).data =
      List.intercalate [' '] (pySplitWs (replaceNbsp (pyStrip s.data))) := rfl
  have hstrip : pyStrip (clean_text s).data = (clean_text s).data := by
    rw [hdata]
    exact pyStrip_eq_self _ (intercalate_sp_head _ hok) (intercalate_sp_last _ hok)
  have hnbsp : ∀ c ∈ (clean_text s).data, c.toNat ≠ 0xa0 := by
    rw [hdata]
    intro c hc hna
    rcases intercalate_sp_mem _ c hc with rfl | ⟨w, hw, hcw⟩
    · rw [space_toNat] at hna
      simp at hna
    · have hfalse := (hok w hw).2 c hcw
      rw [nbsp_is_space c hna] at hfalse
      simp at hfalse
  have hreplace : replaceNbsp (clean_text s).data = (clean_text s).data := by
    rw [replaceNbsp]
    apply map_fix_of_mem
    intro c hc
    rw [if_neg (hnbsp c hc)]
  have hsplit : pySplitWs (clean_text s).data =
      pySplitWs (replaceNbsp (pyStrip s.data)) := by
    rw [hdata]
    exact pySplitWs_roundtrip _ hok
  refine ⟨?_, hstrip, ?_, hnbsp⟩
  · show String.mk (List.intercalate [' ']
        (pySplitWs (replaceNbsp (pyStrip (clean_text s).data)))) = clean_text s
    rw [hstrip, hreplace, hsplit]
    rfl
  · rw [hdata]
    exact intercalate_sp_chain' _ hok
